import Mathlib

/-!
Verification of the Arcs policy model and ingress-validation engine.

The policy engine (policy builders, schema restrictor, ingress aggregator,
canonical serializer) is exercised by the repository's test suite
(`src/runtime/policy/tests/policy-test.ts`).  The engine implementation
itself is not part of the available sources, so the definitions below are
modelled from the specification (sections 3, 4, 6) and are constrained by
the concrete expectations of the test file.
-/

namespace ArcsPolicy

/-- Modelled from the spec: retention medium, closed enum `Ram, Disk`
(spec section 3, `Retention`). -/
inductive Medium where
  | ram
  | disk
deriving DecidableEq, Repr

/-- Modelled from the spec: a retention entry is a medium plus an
encryption-required flag (spec section 3, `Retention`). -/
structure Retention where
  medium : Medium
  encryptionRequired : Bool
deriving DecidableEq, Repr

/-- Modelled from the spec: ttl units (spec section 3, `Ttl`). -/
inductive TtlUnits where
  | days
  | hours
  | minutes
deriving DecidableEq, Repr

/-- Modelled from the spec: `Ttl` is a count plus units (spec section 3). -/
structure Ttl where
  count : Nat
  units : TtlUnits
deriving DecidableEq, Repr

/-- Milliseconds per ttl unit. -/
def TtlUnits.millisPerUnit : TtlUnits → Nat
  | .days => 86400000
  | .hours => 3600000
  | .minutes => 60000

/-- Modelled from the spec: derived `millis` of a ttl; the zero value has
`millis == 0`. -/
def Ttl.millis (t : Ttl) : Nat := t.count * t.units.millisPerUnit

/-- Modelled from the spec: usage type, closed enum `Any, Join, Egress`
(spec section 3, `AllowedUsage`). -/
inductive UsageType where
  | any
  | join
  | egress
deriving DecidableEq, Repr

/-- Modelled from the spec: an allowed usage is a pair of usage type and
label (spec section 3, `AllowedUsage`). -/
structure AllowedUsage where
  usage : UsageType
  label : String
deriving DecidableEq, Repr

/-- Modelled from the spec: field types of the external schema graph:
Primitive, Reference(schema), Inline(schema), Collection(inner)
(spec section 3).  Reference and inline wrappers carry the named schema's
field list so that restricted nested schemas can be represented. -/
inductive FieldType where
  | primitive (t : String)
  | reference (name : String) (fields : List (String × FieldType))
  | inlineEntity (name : String) (fields : List (String × FieldType))
  | collection (inner : FieldType)
deriving Repr

/-- Modelled from the spec: a schema is a name plus an ordered
field-name-to-type mapping (spec section 3). -/
structure Schema where
  name : String
  fields : List (String × FieldType)
deriving Repr

/-- Association-list lookup by key (ordered field maps are association
lists in this embedding). -/
def alookup {α : Type} : String → List (String × α) → Option α
  | _, [] => none
  | k, (k', v) :: rest => if k = k' then some v else alookup k rest

/-- Modelled from the spec: a built policy field: name, derived allowed
usages, the source usage annotations kept verbatim for re-emission, custom
annotations, and the subfield tree (spec section 3, `PolicyField`). -/
inductive PolicyField where
  | mk (name : String) (allowedUsages : List AllowedUsage)
       (usageAnns : List (String × String))
       (customAnns : List String)
       (subfields : List PolicyField)
deriving Repr

def PolicyField.name : PolicyField → String
  | .mk n _ _ _ _ => n

def PolicyField.allowedUsages : PolicyField → List AllowedUsage
  | .mk _ us _ _ _ => us

def PolicyField.usageAnns : PolicyField → List (String × String)
  | .mk _ _ ua _ _ => ua

def PolicyField.customAnns : PolicyField → List String
  | .mk _ _ _ ca _ => ca

def PolicyField.subfields : PolicyField → List PolicyField
  | .mk _ _ _ _ s => s

/-- Modelled from the spec: a built policy target: resolved schema,
retentions, max age (with a flag recording whether it was declared, for
serialization), custom annotations and the field tree (spec section 3,
`PolicyTarget`). -/
structure PolicyTarget where
  schemaName : String
  schema : Schema
  retentions : List Retention
  maxAge : Ttl
  maxAgeDeclared : Bool
  customAnns : List String
  fields : List PolicyField
deriving Repr

/-- Modelled from the spec: a policy config block: name plus ordered
string-to-string metadata (spec section 3, `PolicyConfig`). -/
structure PolicyConfig where
  name : String
  metadata : List (String × String)
deriving Repr

/-- Modelled from the spec: a built policy (spec section 3, `Policy`). -/
structure Policy where
  name : String
  description : Option String
  egressType : Option String
  customAnns : List String
  targets : List PolicyTarget
  configs : List PolicyConfig
deriving Repr

/-- A capability set produced from one retention entry:
persistence medium, encryption flag, and ttl (spec section 4.2,
`toCapabilities`). -/
structure CapabilitySet where
  persistence : Medium
  encryption : Bool
  ttl : Ttl
deriving DecidableEq, Repr

/-- Modelled from the spec: `toCapabilities()` produces one capability set
per retention entry, each set consisting of the retention's persistence and
encryption plus the target-scoped ttl (spec section 4.2). -/
def PolicyTarget.toCapabilities (t : PolicyTarget) : List CapabilitySet :=
  t.retentions.map fun r => ⟨r.medium, r.encryptionRequired, t.maxAge⟩

/-! ## Builders (spec sections 4.1 - 4.3)

The builders consume an already-parsed annotation/declaration AST plus a
schema-lookup capability, validating eagerly and failing with the exact
error strings of the observable contract (spec sections 6, 7).
-/

/-- Modelled from the spec: a field declaration node of the annotation AST:
name, `@allowedUsage(label, usageType)` annotations in source order (as raw
string pairs), custom annotations, and a nested subfield block
(spec section 4.1). -/
inductive FieldDecl where
  | mk (name : String) (usageAnns : List (String × String))
       (customAnns : List String) (subfields : List FieldDecl)
deriving Repr

def FieldDecl.name : FieldDecl → String
  | .mk n _ _ _ => n

def FieldDecl.usageAnns : FieldDecl → List (String × String)
  | .mk _ ua _ _ => ua

def FieldDecl.customAnns : FieldDecl → List String
  | .mk _ _ ca _ => ca

def FieldDecl.subfields : FieldDecl → List FieldDecl
  | .mk _ _ _ s => s

/-- Modelled from the spec: a `from <SchemaName> access { ... }` target
declaration: raw retention annotations (medium string, encryption flag) in
order, at most one raw `@maxAge` ttl string, custom annotations, and the
field declarations (spec section 4.2). -/
structure TargetDecl where
  schemaName : String
  retentionAnns : List (String × Bool)
  maxAgeAnn : Option String
  customAnns : List String
  fields : List FieldDecl
deriving Repr

/-- Modelled from the spec: a policy declaration (spec section 4.3). -/
structure PolicyDecl where
  name : String
  description : Option String
  egressType : Option String
  customAnns : List String
  targets : List TargetDecl
  configs : List PolicyConfig
deriving Repr

/-- The display form of a medium used in error messages. -/
def Medium.display : Medium → String
  | .ram => "Ram"
  | .disk => "Disk"

/-- Modelled from the spec: closed-set validation of a retention medium
string against `Ram, Disk`, with the exact error text of the observable
contract (spec sections 4.2, 6). -/
def parseMedium (s : String) : Except String Medium :=
  if s = "Ram" then .ok .ram
  else if s = "Disk" then .ok .disk
  else .error ("Expected one of: Ram, Disk. Found: " ++ s ++ ".")

/-- Whether a medium string is in the closed set. -/
def validMedium (s : String) : Bool := s = "Ram" || s = "Disk"

/-- The duplicate-retention error message (spec sections 4.2, 6). -/
def dupRetentionMsg (m : Medium) : String :=
  "@allowedRetention has already been defined for " ++ m.display ++ "."

/-- Modelled from the spec: collect `@allowedRetention` annotations in
order, validating the medium and rejecting a repeated medium
(spec section 4.2).  `seen` accumulates the mediums seen so far. -/
def buildRetentions : List (String × Bool) → List Medium → Except String (List Retention)
  | [], _ => .ok []
  | (ms, enc) :: rest, seen =>
    match parseMedium ms with
    | .error e => .error e
    | .ok m =>
      if m ∈ seen then .error (dupRetentionMsg m)
      else
        match buildRetentions rest (m :: seen) with
        | .error e => .error e
        | .ok rs => .ok (⟨m, enc⟩ :: rs)

/-- The mediums denoted by a list of retention annotations (invalid medium
strings are skipped). -/
def medsOf (anns : List (String × Bool)) : List Medium :=
  anns.filterMap fun a => (parseMedium a.1).toOption

/-- Digits-to-number helper for the ttl literal grammar. -/
def natOfDigits (cs : List Char) : Nat :=
  cs.foldl (fun a c => a * 10 + (c.toNat - 48)) 0

/-- Modelled from the spec: parse a ttl literal `<int><unit>` (for example
`2d`); an unparseable string fails with `Invalid ttl: <input>`
(spec sections 4.2, 6). -/
def parseTtl (s : String) : Except String Ttl :=
  let digits := s.data.takeWhile Char.isDigit
  let rest := s.data.dropWhile Char.isDigit
  if digits.isEmpty then .error ("Invalid ttl: " ++ s)
  else
    match rest with
    | ['d'] => .ok ⟨natOfDigits digits, .days⟩
    | ['h'] => .ok ⟨natOfDigits digits, .hours⟩
    | ['m'] => .ok ⟨natOfDigits digits, .minutes⟩
    | _ => .error ("Invalid ttl: " ++ s)

/-- Modelled from the spec: the target's max age defaults to the
zero-duration ttl when no `@maxAge` annotation is present
(spec sections 3, 4.2). -/
def buildMaxAge : Option String → Except String Ttl
  | none => .ok ⟨0, .days⟩
  | some s => parseTtl s

/-- Modelled from the spec: closed-set validation of a usage type string
against `*`, `egress`, `join` (`*` maps to `Any`), with the exact error
text of the observable contract (spec sections 4.1, 6). -/
def parseUsageType (s : String) : Except String UsageType :=
  if s = "*" then .ok .any
  else if s = "egress" then .ok .egress
  else if s = "join" then .ok .join
  else .error ("Expected one of: *, egress, join. Found: " ++ s ++ ".")

/-- Modelled from the spec: build allowed usages from `@allowedUsage`
annotations in source order, rejecting duplicate `(label, type)` pairs with
the exact error text of the observable contract (spec sections 4.1, 6). -/
def buildUsagesGo : List (String × String) → List AllowedUsage → Except String (List AllowedUsage)
  | [], _ => .ok []
  | (l, ts) :: rest, seen =>
    match parseUsageType ts with
    | .error e => .error e
    | .ok u =>
      if (⟨u, l⟩ : AllowedUsage) ∈ seen then
        .error ("Usage of label \x27" ++ l ++ "\x27 for usage type \x27" ++ ts
                ++ "\x27 has already been allowed.")
      else
        match buildUsagesGo rest (⟨u, l⟩ :: seen) with
        | .error e => .error e
        | .ok us => .ok (⟨u, l⟩ :: us)

/-- The synthesized default allowed usage `(Any, '')` (spec section 4.1). -/
def defaultUsage : AllowedUsage := ⟨.any, ""⟩

/-- Modelled from the spec: build a field's allowed usages; if no usage
annotations are present, synthesize the default `(Any, '')` entry
(spec section 4.1). -/
def buildAllowedUsages (anns : List (String × String)) : Except String (List AllowedUsage) :=
  match buildUsagesGo anns [] with
  | .error e => .error e
  | .ok us => .ok (if us.isEmpty then [defaultUsage] else us)

/-- The unknown-field error; it carries the schema's display name and the
field name (spec sections 4.1, 6). -/
def unknownFieldMsg (schemaName fieldName : String) : String :=
  "Schema \x27" ++ schemaName ++ "\x27 does not contain field \x27" ++ fieldName ++ "\x27"

/-- Modelled from the spec: the duplicate-name check threaded through the
single build pass, with the exact error text of the observable contract
(spec sections 4.1 - 4.3, 6, 9). -/
def checkDupNames : List String → List String → Except String Unit
  | [], _ => .ok ()
  | n :: ns, seen =>
    if n ∈ seen then .error ("A definition for \x27" ++ n ++ "\x27 already exists.")
    else checkDupNames ns (n :: seen)

/-- Modelled from the spec: unwrap Reference/Inline/Collection to reach the
named inner schema of a compound field (spec section 4.1). -/
def FieldType.innerSchema? : FieldType → Option Schema
  | .primitive _ => none
  | .reference n f => some ⟨n, f⟩
  | .inlineEntity n f => some ⟨n, f⟩
  | .collection i => i.innerSchema?

/-- Whether a declared field type is compound: Reference, Inline, or a
collection of a compound type (spec section 4.4). -/
def FieldType.isCompound : FieldType → Bool
  | .primitive _ => false
  | .reference _ _ => true
  | .inlineEntity _ _ => true
  | .collection i => i.isCompound

mutual

/-- Modelled from the spec: the policy field tree builder (spec section
4.1).  Duplicate sibling names are rejected first (matching the test that
expects the duplicate error even for names absent from the schema); then
each declaration is resolved against the in-scope schema's field map,
failing with the unknown-field error if absent, and subfield blocks recurse
with the compound field's inner schema as the new scope. -/
def buildPolicyFields (s : Schema) (ds : List FieldDecl) : Except String (List PolicyField) :=
  match checkDupNames (ds.map FieldDecl.name) [] with
  | .error e => .error e
  | .ok _ => buildEachField s ds
termination_by (sizeOf ds, 2)

/-- Build each field declaration in order (spec section 4.1). -/
def buildEachField (s : Schema) (ds : List FieldDecl) : Except String (List PolicyField) :=
  match ds with
  | [] => .ok []
  | d :: rest =>
    match buildPolicyField s d with
    | .error e => .error e
    | .ok f =>
      match buildEachField s rest with
      | .error e => .error e
      | .ok fs => .ok (f :: fs)
termination_by (sizeOf ds, 1)

/-- Modelled from the spec: build one policy field: resolve the name
against the in-scope schema, build the allowed usages, and recurse into the
subfield block using the compound field's inner schema (spec section
4.1). -/
def buildPolicyField (s : Schema) (d : FieldDecl) : Except String PolicyField :=
  match alookup d.name s.fields with
  | none => .error (unknownFieldMsg s.name d.name)
  | some ft =>
    match buildAllowedUsages d.usageAnns with
    | .error e => .error e
    | .ok us =>
      if d.subfields.isEmpty then
        .ok (.mk d.name us d.usageAnns d.customAnns [])
      else
        match ft.innerSchema? with
        | none => .error ("Field \x27" ++ d.name ++ "\x27 of schema \x27" ++ s.name
                          ++ "\x27 is not a compound type.")
        | some s' =>
          match buildPolicyFields s' d.subfields with
          | .error e => .error e
          | .ok subs => .ok (.mk d.name us d.usageAnns d.customAnns subs)
termination_by (sizeOf d, 0)
decreasing_by
  refine Prod.Lex.left _ _ ?_
  cases d
  simp [FieldDecl.subfields]

end

/-- Modelled from the spec: the policy target builder: resolve the schema
name (failing with `Unknown type name`), build retentions and max age, and
delegate the field block to the field tree builder with the resolved schema
as root scope (spec section 4.2). -/
def buildTarget (resolve : String → Option Schema) (td : TargetDecl) : Except String PolicyTarget :=
  match resolve td.schemaName with
  | none => .error ("Unknown type name: " ++ td.schemaName ++ ".")
  | some s =>
    match buildRetentions td.retentionAnns [] with
    | .error e => .error e
    | .ok rets =>
      match buildMaxAge td.maxAgeAnn with
      | .error e => .error e
      | .ok ma =>
        match buildPolicyFields s td.fields with
        | .error e => .error e
        | .ok fs =>
          .ok ⟨td.schemaName, s, rets, ma, td.maxAgeAnn.isSome, td.customAnns, fs⟩

/-- Build each target declaration in order (spec section 4.3). -/
def buildTargets (resolve : String → Option Schema) : List TargetDecl → Except String (List PolicyTarget)
  | [] => .ok []
  | td :: tds =>
    match buildTarget resolve td with
    | .error e => .error e
    | .ok t =>
      match buildTargets resolve tds with
      | .error e => .error e
      | .ok ts => .ok (t :: ts)

/-- Modelled from the spec: the policy builder: targets are rejected as
duplicates by schema name and configs by config name; annotations are
carried into the built policy (spec section 4.3). -/
def buildPolicy (resolve : String → Option Schema) (pd : PolicyDecl) : Except String Policy :=
  match checkDupNames (pd.targets.map TargetDecl.schemaName) [] with
  | .error e => .error e
  | .ok _ =>
    match checkDupNames (pd.configs.map PolicyConfig.name) [] with
    | .error e => .error e
    | .ok _ =>
      match buildTargets resolve pd.targets with
      | .error e => .error e
      | .ok ts => .ok ⟨pd.name, pd.description, pd.egressType, pd.customAnns, ts, pd.configs⟩

/-! ## Schema restrictor (spec section 4.4) -/

mutual

/-- Modelled from the spec: restrict a schema's field list to the fields
selected by the field-tree nodes, in the field-tree's declaration order: a
primitive field is copied unchanged; a compound field with subfields has
its inner schema recursively restricted and re-wrapped; a compound field
with no subfields keeps its full, unrestricted original type (spec section
4.4). -/
def restrictFields (flds : List (String × FieldType)) (nodes : List PolicyField) : List (String × FieldType) :=
  match nodes with
  | [] => []
  | node :: rest =>
    match alookup node.name flds with
    | none => restrictFields flds rest
    | some ft =>
      if node.subfields.isEmpty then (node.name, ft) :: restrictFields flds rest
      else (node.name, restrictType ft node.subfields) :: restrictFields flds rest
termination_by (sizeOf nodes, 0)
decreasing_by
  all_goals try cases node
  all_goals try simp [PolicyField.subfields]
  all_goals decreasing_tactic

/-- Modelled from the spec: restrict a compound field type by a node's
subfields, re-wrapping with the original Reference/Inline/Collection kind
(spec section 4.4). -/
def restrictType (ft : FieldType) (nodes : List PolicyField) : FieldType :=
  match ft with
  | .primitive t => .primitive t
  | .reference n f => .reference n (restrictFields f nodes)
  | .inlineEntity n f => .inlineEntity n (restrictFields f nodes)
  | .collection i => .collection (restrictType i nodes)
termination_by (sizeOf nodes, 1 + sizeOf ft)
decreasing_by
  all_goals decreasing_tactic

end

/-- Modelled from the spec: `getMaxReadSchema()` produces the schema
containing exactly the fields the target's field tree selects (spec
section 4.4). -/
def PolicyTarget.getMaxReadSchema (t : PolicyTarget) : Schema :=
  ⟨t.schema.name, restrictFields t.schema.fields t.fields⟩

/-! ## Ingress validation aggregator (spec section 4.5) -/

mutual

/-- Modelled from the spec: walk a restricted field list, collecting every
schema reached through a Reference (recursing through inline wrappers and
collections without collecting the inline schemas themselves)
(spec section 4.5). -/
def collectFromFields (flds : List (String × FieldType)) : List (String × Schema) :=
  match flds with
  | [] => []
  | (_, ft) :: rest => collectFromType ft ++ collectFromFields rest
termination_by sizeOf flds
/-- Modelled from the spec: collect the schemas reached through a
Reference inside one field type (spec section 4.5). -/
def collectFromType (ft : FieldType) : List (String × Schema) :=
  match ft with
  | .primitive _ => []
  | .reference n f => (n, ⟨n, f⟩) :: collectFromFields f
  | .inlineEntity _ f => collectFromFields f
  | .collection i => collectFromType i
termination_by sizeOf ft
end

mutual

/-- Whether some field of a restricted field list reaches the named schema
through a Reference, descending through inline wrappers, collections, and
references (spec section 4.5). -/
def fieldsMentionRef (flds : List (String × FieldType)) (n : String) : Bool :=
  match flds with
  | [] => false
  | (_, ft) :: rest => typeMentionsRef ft n || fieldsMentionRef rest n
termination_by sizeOf flds
/-- Whether a field type reaches the named schema through a Reference
(spec section 4.5). -/
def typeMentionsRef (ft : FieldType) (n : String) : Bool :=
  match ft with
  | .primitive _ => false
  | .reference m f => (m = n) || fieldsMentionRef f n
  | .inlineEntity _ f => fieldsMentionRef f n
  | .collection i => typeMentionsRef i n
termination_by sizeOf ft
end

mutual

/-- Modelled from the spec: merge two restricted field lists by recursive
field union: the field set is the union of field names, a field compound in
both is merged recursively, and a field present in only one source is
carried through unchanged (spec section 4.5). -/
def mergeFields (a b : List (String × FieldType)) : List (String × FieldType) :=
  match b with
  | [] => a
  | (n, ft) :: rest => mergeFields (insertField a n ft) rest
termination_by (sizeOf b, 2, 0)

/-- Insert one field into a merged field list, merging with an existing
field of the same name (spec section 4.5). -/
def insertField (a : List (String × FieldType)) (n : String) (ft : FieldType) : List (String × FieldType) :=
  match a with
  | [] => [(n, ft)]
  | (m, g) :: r => if m = n then (m, mergeType g ft) :: r else (m, g) :: insertField r n ft
termination_by (sizeOf ft, 1, sizeOf a)

/-- Modelled from the spec: merge two field types: compound types of the
same kind have their inner schemas merged recursively; otherwise the first
type is kept (spec section 4.5). -/
def mergeType (g ft : FieldType) : FieldType :=
  match g, ft with
  | .reference n1 f1, .reference _ f2 => .reference n1 (mergeFields f1 f2)
  | .inlineEntity n1 f1, .inlineEntity _ f2 => .inlineEntity n1 (mergeFields f1 f2)
  | .collection i1, .collection i2 => .collection (mergeType i1 i2)
  | x, _ => x
termination_by (sizeOf ft, 0, sizeOf g)

end

/-- Modelled from the spec: merge two schemas by recursive field union
(spec section 4.5). -/
def mergeSchema (a b : Schema) : Schema := ⟨a.name, mergeFields a.fields b.fields⟩

/-- The entries contributed by one restricted target schema: the root
schema itself plus every schema reached through a Reference
(spec section 4.5). -/
def collectEntries (s : Schema) : List (String × Schema) :=
  (s.name, s) :: collectFromFields s.fields

/-- All entries contributed by every target of every policy, in order
(spec section 4.5). -/
def allEntries (ps : List Policy) : List (String × Schema) :=
  (ps.map fun p => (p.targets.map fun t => collectEntries t.getMaxReadSchema).flatten).flatten

/-- Insert one entry into the name-keyed aggregation, merging with an
existing entry of the same schema name (spec section 4.5). -/
def insertEntry (acc : List (String × Schema)) (e : String × Schema) : List (String × Schema) :=
  match acc with
  | [] => [e]
  | (n, s) :: rest =>
    if n = e.1 then (n, mergeSchema s e.2) :: rest else (n, s) :: insertEntry rest e

/-- Modelled from the spec: the ingress-validation aggregation: the
name-keyed map from schema name to its merged maximal accessible schema,
over every target of every policy (spec section 4.5). -/
def maxReadSchemas (ps : List Policy) : List (String × Schema) :=
  (allEntries ps).foldl insertEntry []

/-! ## Canonical serializer (spec section 4.6)

The layout (indentation, named annotation arguments, trailing commas) is
modelled from the canonical text asserted byte-for-byte by the round-trip
test in `policy-test.ts`.
-/

/-- Join lines with newline separators. -/
def joinLines : List String → String
  | [] => ""
  | [l] => l
  | l :: ls => l ++ "\n" ++ joinLines ls

/-- The canonical unit suffix of a ttl literal. -/
def TtlUnits.suffix : TtlUnits → String
  | .days => "d"
  | .hours => "h"
  | .minutes => "m"

/-- The canonical text of a ttl literal. -/
def Ttl.render (t : Ttl) : String := toString t.count ++ t.units.suffix

/-- The canonical text of a boolean annotation argument. -/
def boolText : Bool → String
  | true => "true"
  | false => "false"

/-- One canonical `@allowedUsage` annotation line; the serializer re-emits
the source annotations verbatim, so a field's synthesized default usage is
never printed (spec section 4.6). -/
def usageAnnLine (ind : String) (a : String × String) : String :=
  ind ++ "@allowedUsage(label: \x27" ++ a.1 ++ "\x27, usageType: \x27" ++ a.2 ++ "\x27)"

mutual

/-- Modelled from the spec: serialize one policy field, preserving the
declaration order of its annotations and subfields (spec section 4.6). -/
def serializeField (ind : String) (f : PolicyField) : List String :=
  f.usageAnns.map (usageAnnLine ind)
  ++ f.customAnns.map (fun c => ind ++ "@" ++ c)
  ++ (if f.subfields.isEmpty then [ind ++ f.name ++ ","]
      else (ind ++ f.name ++ " \x7b") :: (serializeFields (ind ++ "  ") f.subfields
           ++ [ind ++ "\x7d,"]))
termination_by (sizeOf f, 0)
decreasing_by
  all_goals try cases f
  all_goals try simp [PolicyField.subfields]
  all_goals decreasing_tactic

/-- Serialize a field list in declaration order (spec section 4.6). -/
def serializeFields (ind : String) (fs : List PolicyField) : List String :=
  match fs with
  | [] => []
  | f :: rest => serializeField ind f ++ serializeFields ind rest
termination_by (sizeOf fs, 1)
decreasing_by
  all_goals decreasing_tactic

end

/-- Modelled from the spec: serialize one policy target with its
annotations, in the canonical named-argument form (spec section 4.6). -/
def serializeTarget (t : PolicyTarget) : List String :=
  (if t.maxAgeDeclared then ["  @maxAge(age: \x27" ++ t.maxAge.render ++ "\x27)"] else [])
  ++ t.retentions.map (fun r =>
       "  @allowedRetention(medium: \x27" ++ r.medium.display ++ "\x27, encryption: "
       ++ boolText r.encryptionRequired ++ ")")
  ++ t.customAnns.map (fun c => "  @" ++ c)
  ++ ["  from " ++ t.schemaName ++ " access \x7b"]
  ++ serializeFields "    " t.fields
  ++ ["  \x7d"]

/-- Modelled from the spec: serialize one config block, preserving the
order of its metadata entries (spec section 4.6). -/
def serializeConfig (c : PolicyConfig) : List String :=
  ("  config " ++ c.name ++ " \x7b")
  :: (c.metadata.map (fun kv => "    " ++ kv.1 ++ ": \x27" ++ kv.2 ++ "\x27") ++ ["  \x7d"])

/-- Modelled from the spec: `toManifestString()` prints a built policy back
to the textual notation, preserving declaration order; annotation arguments
are printed in the canonical named form (spec section 4.6). -/
def Policy.toManifestString (p : Policy) : String :=
  joinLines
    ((match p.description with
      | some d => ["@intendedPurpose(description: \x27" ++ d ++ "\x27)"]
      | none => [])
     ++ (match p.egressType with
         | some e => ["@egressType(type: \x27" ++ e ++ "\x27)"]
         | none => [])
     ++ p.customAnns.map (fun c => "@" ++ c)
     ++ (if p.targets.isEmpty && p.configs.isEmpty then
           ["policy " ++ p.name ++ " \x7b\x7d"]
         else
           ("policy " ++ p.name ++ " \x7b")
           :: ((p.targets.map serializeTarget).flatten
               ++ (p.configs.map serializeConfig).flatten
               ++ ["\x7d"])))

/-! ## Textual surface fragment (spec section 6)

A parser for a fragment of the textual policy surface: a policy with an
optional `@intendedPurpose` annotation and an empty body.  The annotation
argument is accepted both in named form (`description: 'x'`) and in
positional form (`'x'`), as exercised by the repository's tests.  The
parser works on character lists and is total.
-/

/-- Strip an expected character-list prefix, returning the remainder. -/
def stripPref : List Char → List Char → Option (List Char)
  | [], t => some t
  | _ :: _, [] => none
  | p :: ps, c :: cs => if c = p then stripPref ps cs else none

/-- Split a character list at the first occurrence of a delimiter. -/
def takeUntil (d : Char) : List Char → Option (List Char × List Char)
  | [] => none
  | c :: cs =>
    if c = d then some ([], cs)
    else (takeUntil d cs).map fun p => (c :: p.1, p.2)

/-- An empty-bodied policy model of the surface fragment. -/
def emptyPolicy (n : String) (d : Option String) : Policy :=
  ⟨n, d, none, [], [], []⟩

/-- Parse the `policy <Name> {}` part of the fragment. -/
def parseNamePart (t : List Char) : Option String :=
  match stripPref "policy ".data t with
  | none => none
  | some r =>
    match takeUntil ' ' r with
    | none => none
    | some (nm, r2) => if r2 = "\x7b\x7d".data then some (String.mk nm) else none

/-- Parse an annotation argument `'<d>')\n` (after the optional
`description: ` keyword has been stripped), then the policy line. -/
def parseDescTail (t : List Char) : Option Policy :=
  match takeUntil '\x27' t with
  | none => none
  | some (d, r) =>
    match stripPref ")\n".data r with
    | none => none
    | some r2 => (parseNamePart r2).map fun nm => emptyPolicy nm (some (String.mk d))

/-- Modelled from the spec: parse the textual surface fragment: an optional
`@intendedPurpose` annotation (named or positional argument form, both
accepted by the grammar) followed by `policy <Name> {}` (spec section 6). -/
def parsePolicyText (s : String) : Option Policy :=
  match stripPref "@intendedPurpose(".data s.data with
  | none => (parseNamePart s.data).map fun nm => emptyPolicy nm none
  | some rest =>
    match stripPref "description: \x27".data rest with
    | some r2 => parseDescTail r2
    | none =>
      match stripPref "\x27".data rest with
      | some r2 => parseDescTail r2
      | none => none

/-! ## Concrete schemas and targets from the test suite -/

/-- The `Friend` schema nested in the test manifest's `Person`. -/
def friendFields : List (String × FieldType) :=
  [("name", .primitive "Text"), ("age", .primitive "Number")]

/-- The test manifest's `Person` schema:
`name: Text, age: Number, friends: [&Friend {name, age}]`. -/
def personSchemaT : Schema :=
  ⟨"Person",
   [("name", .primitive "Text"), ("age", .primitive "Number"),
    ("friends", .collection (.reference "Friend" friendFields))]⟩

/-- The schema-lookup capability of the test manifest. -/
def resolveTest : String → Option Schema :=
  fun n => if n = "Person" then some personSchemaT else none

/-- A leaf policy field carrying only the synthesized default usage. -/
def leafField (n : String) : PolicyField := .mk n [defaultUsage] [] [] []

/-- The `Address` schema of the restriction test:
`number: Number, street: Text, city: Text, country: Text`. -/
def addressFields : List (String × FieldType) :=
  [("number", .primitive "Number"), ("street", .primitive "Text"),
   ("city", .primitive "Text"), ("country", .primitive "Text")]

/-- The restriction test's `Person` schema: `name: Text, phone: Text,
address: &Address, otherAddresses: [&Address {street, city, country}]`. -/
def personSchemaC1 : Schema :=
  ⟨"Person",
   [("name", .primitive "Text"), ("phone", .primitive "Text"),
    ("address", .reference "Address" addressFields),
    ("otherAddresses", .collection (.reference "Address"
      [("street", .primitive "Text"), ("city", .primitive "Text"),
       ("country", .primitive "Text")]))]⟩

/-- The restriction test's target: selects `name`,
`address {number, street, city}`, `otherAddresses {city, country}`. -/
def personTargetC1 : PolicyTarget :=
  ⟨"Person", personSchemaC1, [], ⟨0, .days⟩, false, [],
   [.mk "name" [defaultUsage] [] [] [],
    .mk "address" [defaultUsage] [] []
      [leafField "number", leafField "street", leafField "city"],
    .mk "otherAddresses" [defaultUsage] [] []
      [leafField "city", leafField "country"]]⟩

/-- The expected maximal read schema of the restriction test: a `Person`
with exactly the selected fields and subfields, in field-tree order. -/
def expectedPersonC1 : Schema :=
  ⟨"Person",
   [("name", .primitive "Text"),
    ("address", .reference "Address"
      [("number", .primitive "Number"), ("street", .primitive "Text"),
       ("city", .primitive "Text")]),
    ("otherAddresses", .collection (.reference "Address"
      [("city", .primitive "Text"), ("country", .primitive "Text")]))]⟩

/-! ## Claim theorems -/

/-- C1: for the `Person`/`Address` schema of the restriction test and the
target selecting `name`, `address {number, street, city}` and
`otherAddresses {city, country}`, `getMaxReadSchema()` returns a `Person`
schema with exactly those fields and subfields and no others, each compound
field re-wrapped in its original Reference/Collection kind, in the
field-tree's declaration order. -/
theorem getMaxReadSchema_restricts_person :
    personTargetC1.getMaxReadSchema = expectedPersonC1 := by
  simp [PolicyTarget.getMaxReadSchema, personTargetC1, personSchemaC1, expectedPersonC1,
        restrictFields, restrictType, alookup, leafField, defaultUsage, addressFields,
        PolicyField.name, PolicyField.subfields]

/-- C5: `toCapabilities()` returns exactly one capability set per declared
retention entry, in declaration order, each consisting of the retention's
persistence medium and encryption flag plus the target-scoped ttl attached
identically to every set; a target with no retentions yields an empty
list. -/
theorem toCapabilities_spec (t : PolicyTarget) :
    t.toCapabilities.length = t.retentions.length
    ∧ (∀ i : Nat, t.toCapabilities.get? i
        = (t.retentions.get? i).map fun r => ⟨r.medium, r.encryptionRequired, t.maxAge⟩)
    ∧ (∀ c ∈ t.toCapabilities, c.ttl = t.maxAge)
    ∧ (t.retentions = [] → t.toCapabilities = []) := by
  refine ⟨List.length_map _ _, fun i => ?_, fun c hc => ?_, fun h => ?_⟩
  · simp [PolicyTarget.toCapabilities]
  · simp [PolicyTarget.toCapabilities] at hc
    obtain ⟨r, _, rfl⟩ := hc
    rfl
  · simp [PolicyTarget.toCapabilities, h]

/-- The test target with retentions `[(Disk, true), (Ram, false)]` and
`maxAge` of two days. -/
def diskRamTarget : PolicyTarget :=
  ⟨"Person", personSchemaT, [⟨.disk, true⟩, ⟨.ram, false⟩], ⟨2, .days⟩, true, [], []⟩

/-- A target with no retentions. -/
def noRetTarget : PolicyTarget :=
  ⟨"Person", personSchemaT, [], ⟨0, .days⟩, false, [], []⟩

/-- Witness for C5 at concrete targets: the no-retention target yields the
empty list, and the two-retention test target yields the expected first
capability set. -/
theorem toCapabilities_spec_witness :
    noRetTarget.retentions = [] ∧ noRetTarget.toCapabilities = []
    ∧ diskRamTarget.toCapabilities.get? 0 = some ⟨.disk, true, ⟨2, .days⟩⟩ := by
  refine ⟨rfl, (toCapabilities_spec noRetTarget).2.2.2 rfl, ?_⟩
  have h := (toCapabilities_spec diskRamTarget).2.1 0
  simpa [diskRamTarget] using h

/-- C7: in `getMaxReadSchema()`, a selected field whose declared type is
compound but whose field-tree node has no subfields is included in the
result with its full, unrestricted original type. -/
theorem restrict_compound_leaf_keeps_type
    (flds : List (String × FieldType)) (n : String) (us : List AllowedUsage)
    (ua : List (String × String)) (ca : List String) (rest : List PolicyField)
    (ft : FieldType) (hl : alookup n flds = some ft) (_hc : ft.isCompound = true) :
    restrictFields flds (.mk n us ua ca [] :: rest) = (n, ft) :: restrictFields flds rest := by
  simp [restrictFields, PolicyField.name, PolicyField.subfields, hl]

/-- Witness for C7: selecting the compound `friends` field of the test
`Person` schema as a bare leaf keeps its full
`[&Friend {name, age}]` type. -/
theorem restrict_compound_leaf_keeps_type_witness :
    restrictFields personSchemaT.fields [.mk "friends" [defaultUsage] [] [] []]
      = [("friends", .collection (.reference "Friend" friendFields))] := by
  have h := restrict_compound_leaf_keeps_type personSchemaT.fields "friends"
    [defaultUsage] [] [] [] (.collection (.reference "Friend" friendFields))
    (by simp [personSchemaT, alookup]) (by simp [FieldType.isCompound])
  rw [h]
  simp [restrictFields]

/-- Characterization of the usage-annotation pass: on success it returns
one parsed `(usage, label)` pair per annotation, in source order. -/
theorem buildUsagesGo_ok : ∀ (anns : List (String × String)) (seen : List AllowedUsage)
    (us : List AllowedUsage), buildUsagesGo anns seen = .ok us →
    us.length = anns.length
    ∧ ∀ (i : Nat) (l ts : String), anns.get? i = some (l, ts) →
        ∃ u, parseUsageType ts = .ok u ∧ us.get? i = some ⟨u, l⟩ := by
  intro anns
  induction anns with
  | nil =>
    intro seen us h
    simp [buildUsagesGo] at h
    subst h
    simp
  | cons a rest ih =>
    intro seen us h
    obtain ⟨l, ts⟩ := a
    cases hp : parseUsageType ts with
    | error e => simp [buildUsagesGo, hp] at h
    | ok u =>
      simp only [buildUsagesGo, hp] at h
      by_cases hm : (⟨u, l⟩ : AllowedUsage) ∈ seen
      · simp [hm] at h
      · simp only [hm, if_neg, if_false] at h
        cases hr : buildUsagesGo rest (⟨u, l⟩ :: seen) with
        | error e => simp [hr] at h
        | ok us' =>
          simp [hr] at h
          subst h
          obtain ⟨hlen, hpt⟩ := ih (⟨u, l⟩ :: seen) us' hr
          refine ⟨by simp [hlen], fun i l' ts' hi => ?_⟩
          cases i with
          | zero =>
            simp at hi
            obtain ⟨rfl, rfl⟩ := hi
            exact ⟨u, hp, by simp⟩
          | succ j =>
            simp only [List.get?_cons_succ] at hi ⊢
            exact hpt j l' ts' hi

/-- On success the field builder's allowed usages came from
`buildAllowedUsages` on the declaration's usage annotations. -/
theorem buildPolicyField_usages (s : Schema) (d : FieldDecl) (f : PolicyField)
    (h : buildPolicyField s d = .ok f) :
    buildAllowedUsages d.usageAnns = .ok f.allowedUsages := by
  rw [buildPolicyField] at h
  cases hl : alookup d.name s.fields with
  | none => simp [hl] at h
  | some ft =>
    simp only [hl] at h
    cases hu : buildAllowedUsages d.usageAnns with
    | error e => simp [hu] at h
    | ok us =>
      simp only [hu] at h
      by_cases hs : d.subfields.isEmpty
      · simp [hs] at h
        rw [← h]
        simp [PolicyField.allowedUsages]
      · simp only [hs, if_neg, if_false] at h
        cases hi : ft.innerSchema? with
        | none => simp [hi] at h
        | some s' =>
          simp only [hi] at h
          cases hb : buildPolicyFields s' d.subfields with
          | error e => simp [hb] at h
          | ok subs =>
            simp [hb] at h
            rw [← h]
            simp [PolicyField.allowedUsages]

/-- C6: a built policy field with no `@allowedUsage` annotation has exactly
the single synthetic `(Any, '')` allowed usage, while a field with explicit
annotations has exactly those parsed `(usage, label)` pairs in source order
and no synthetic entry. -/
theorem builtField_allowedUsages (s : Schema) (d : FieldDecl) (f : PolicyField)
    (h : buildPolicyField s d = .ok f) :
    (d.usageAnns = [] → f.allowedUsages = [defaultUsage])
    ∧ (d.usageAnns ≠ [] →
        f.allowedUsages.length = d.usageAnns.length
        ∧ ∀ (i : Nat) (l ts : String), d.usageAnns.get? i = some (l, ts) →
            ∃ u, parseUsageType ts = .ok u ∧ f.allowedUsages.get? i = some ⟨u, l⟩) := by
  have hu := buildPolicyField_usages s d f h
  rw [buildAllowedUsages] at hu
  cases hg : buildUsagesGo d.usageAnns [] with
  | error e => simp [hg] at hu
  | ok us0 =>
    simp [hg] at hu
    obtain ⟨hlen, hpt⟩ := buildUsagesGo_ok d.usageAnns [] us0 hg
    constructor
    · intro hnil
      rw [hnil] at hlen
      simp at hlen
      rw [← hu, hlen]
      simp
    · intro hne
      have hne0 : us0 ≠ [] := by
        intro h0
        rw [h0] at hlen
        simp at hlen
        exact hne (List.eq_nil_of_length_eq_zero hlen.symm)
      rw [if_neg hne0] at hu
      rw [← hu]
      exact ⟨hlen, hpt⟩

/-- Witness for C6 at concrete declarations: an annotation-free `age` field
gets the synthetic default, and a field with two explicit annotations keeps
exactly those pairs. -/
theorem builtField_allowedUsages_witness :
    (∃ f, buildPolicyField personSchemaT (.mk "age" [] [] []) = .ok f
          ∧ f.allowedUsages = [defaultUsage])
    ∧ (∃ g, buildPolicyField personSchemaT
              (.mk "age" [("redacted", "egress"), ("redacted", "join")] [] []) = .ok g
            ∧ g.allowedUsages.length = 2
            ∧ g.allowedUsages.get? 0 = some ⟨.egress, "redacted"⟩) := by
  constructor
  · refine ⟨.mk "age" [defaultUsage] [] [] [], ?_, rfl⟩
    rw [buildPolicyField]
    simp [personSchemaT, alookup, FieldDecl.name, FieldDecl.usageAnns, FieldDecl.customAnns,
          FieldDecl.subfields, buildAllowedUsages, buildUsagesGo]
  · have hb : buildPolicyField personSchemaT
        (.mk "age" [("redacted", "egress"), ("redacted", "join")] [] [])
        = .ok (.mk "age" [⟨.egress, "redacted"⟩, ⟨.join, "redacted"⟩]
                 [("redacted", "egress"), ("redacted", "join")] [] []) := by
      rw [buildPolicyField]
      simp [personSchemaT, alookup, FieldDecl.name, FieldDecl.usageAnns, FieldDecl.customAnns,
            FieldDecl.subfields, buildAllowedUsages, buildUsagesGo, parseUsageType, defaultUsage]
    refine ⟨_, hb, ?_, ?_⟩
    · have h := (builtField_allowedUsages _ _ _ hb).2 (by simp [FieldDecl.usageAnns])
      simpa [FieldDecl.usageAnns] using h.1
    · have h := (builtField_allowedUsages _ _ _ hb).2 (by simp [FieldDecl.usageAnns])
      obtain ⟨u, hu, hg⟩ := h.2 0 "redacted" "egress" (by simp [FieldDecl.usageAnns])
      simp [parseUsageType] at hu
      subst hu
      exact hg

/-- Generalized invariant of the retention builder: with all-valid medium
strings, a duplicate medium (relative to the accumulator) fails with the
exact duplicate-retention message, and success yields retentions whose
mediums extend the accumulator without repetition. -/
theorem buildRetentions_invariant : ∀ (anns : List (String × Bool)) (seen : List Medium),
    (∀ a ∈ anns, validMedium a.1 = true) → seen.Nodup →
    (¬ (seen ++ medsOf anns).Nodup →
       ∃ m, (m ∈ seen ∧ m ∈ medsOf anns ∨ 2 ≤ (medsOf anns).count m)
            ∧ buildRetentions anns seen = .error (dupRetentionMsg m))
    ∧ (∀ rs, buildRetentions anns seen = .ok rs →
        (rs.map Retention.medium).Nodup ∧ ∀ m ∈ rs.map Retention.medium, m ∉ seen) := by
  intro anns
  induction anns with
  | nil =>
    intro seen _ hseen
    constructor
    · intro hbad
      exact absurd (by simpa [medsOf] using hseen) hbad
    · intro rs hrs
      simp [buildRetentions] at hrs
      subst hrs
      simp
  | cons a rest ih =>
    intro seen hvalid hseen
    obtain ⟨ms, enc⟩ := a
    have hv : validMedium ms = true := hvalid (ms, enc) (by simp)
    have hpm : ∃ m, parseMedium ms = .ok m := by
      simp [validMedium] at hv
      rcases hv with h | h <;> subst h <;> simp [parseMedium]
    obtain ⟨m, hm⟩ := hpm
    have hmeds : medsOf ((ms, enc) :: rest) = m :: medsOf rest := by
      simp [medsOf, List.filterMap_cons, hm, Except.toOption]
    by_cases hin : m ∈ seen
    · constructor
      · intro _
        refine ⟨m, Or.inl ⟨hin, by simp [hmeds]⟩, ?_⟩
        simp [buildRetentions, hm, hin]
      · intro rs hrs
        simp [buildRetentions, hm, hin] at hrs
    · have hrec := ih (m :: seen) (fun a ha => hvalid a (by simp [ha]))
        (by simp [hseen, hin])
      constructor
      · intro hbad
        have hbad' : ¬ ((m :: seen) ++ medsOf rest).Nodup := by
          intro hnd
          apply hbad
          rw [hmeds]
          have hperm : ((m :: seen) ++ medsOf rest).Perm (seen ++ m :: medsOf rest) :=
            List.perm_middle.symm
          exact hperm.nodup hnd
        obtain ⟨m', hd, herr⟩ := hrec.1 hbad'
        refine ⟨m', ?_, ?_⟩
        · rcases hd with ⟨hm1, hm2⟩ | hcount
          · rcases List.mem_cons.mp hm1 with rfl | hm1'
            · right
              rw [hmeds]
              have hge : 0 < (medsOf rest).count m' := List.count_pos_iff.mpr hm2
              rw [List.count_cons_self]
              omega
            · exact Or.inl ⟨hm1', by simp [hmeds, hm2]⟩
          · right
            rw [hmeds]
            by_cases hmm : m' = m
            · subst hmm
              rw [List.count_cons_self]
              omega
            · rw [List.count_cons_of_ne hmm]
              exact hcount
        · simp [buildRetentions, hm, hin, herr]
      · intro rs hrs
        simp only [buildRetentions, hm, if_neg hin] at hrs
        cases hr2 : buildRetentions rest (m :: seen) with
        | error e => rw [hr2] at hrs; cases hrs
        | ok rs' =>
          rw [hr2] at hrs
          simp at hrs
          subst hrs
          obtain ⟨hnd, hnotin⟩ := hrec.2 rs' hr2
          have hmnot : m ∉ rs'.map Retention.medium := fun hmem =>
            (hnotin m hmem) (by simp)
          refine ⟨by simp [hnd, hmnot], ?_⟩
          intro m' hm'
          simp at hm'
          rcases hm' with rfl | hm''
          · exact hin
          · intro hbad2
            exact hnotin m' (by simpa using hm'') (by simp [hbad2])

/-- C9: a target declaring two `@allowedRetention` annotations with the
same (valid) medium always fails with the exact message
`@allowedRetention has already been defined for <Medium>.` for a duplicated
medium, so every successfully built retention list has pairwise-distinct
mediums. -/
theorem retention_mediums_unique (anns : List (String × Bool))
    (hvalid : ∀ a ∈ anns, validMedium a.1 = true) :
    (¬ (medsOf anns).Nodup →
       ∃ m, 2 ≤ (medsOf anns).count m
            ∧ buildRetentions anns [] = .error (dupRetentionMsg m))
    ∧ (∀ rs, buildRetentions anns [] = .ok rs → (rs.map Retention.medium).Nodup) := by
  have h := buildRetentions_invariant anns [] hvalid List.nodup_nil
  constructor
  · intro hbad
    obtain ⟨m, hd, herr⟩ := h.1 (by simpa using hbad)
    refine ⟨m, ?_, herr⟩
    rcases hd with ⟨hm1, _⟩ | hcount
    · cases hm1
    · exact hcount
  · intro rs hrs
    exact (h.2 rs hrs).1

/-- The duplicate-name check succeeds on sibling names that are distinct
from each other and from the accumulator. -/
theorem checkDupNames_of_nodup : ∀ (ns seen : List String), ns.Nodup →
    (∀ n ∈ ns, n ∉ seen) → checkDupNames ns seen = .ok () := by
  intro ns
  induction ns with
  | nil => intro seen _ _; rfl
  | cons n rest ih =>
    intro seen hnd hdisj
    have hn : n ∉ seen := hdisj n (by simp)
    rw [checkDupNames, if_neg hn]
    refine ih (n :: seen) (List.nodup_cons.mp hnd).2 ?_
    intro m hm
    simp only [List.mem_cons]
    push_neg
    exact ⟨fun he => (List.nodup_cons.mp hnd).1 (he ▸ hm), hdisj m (by simp [hm])⟩

/-- C8: building a target whose field tree selects a name absent from the
resolved in-scope schema fails with the error naming both the schema and
the offending field; the check applies recursively, an unknown subfield
being checked against the nested schema resolved for its compound parent
field, and a field-tree error surfaces unchanged from the target
builder. -/
theorem unknown_field_rejected :
    (∀ (s : Schema) (d : FieldDecl) (ds : List FieldDecl),
       (((d :: ds).map FieldDecl.name).Nodup) →
       alookup d.name s.fields = none →
       buildPolicyFields s (d :: ds) = .error (unknownFieldMsg s.name d.name))
    ∧ (∀ (s : Schema) (d : FieldDecl) (ds : List FieldDecl) (ft : FieldType)
         (s' : Schema) (us : List AllowedUsage) (e : String),
       (((d :: ds).map FieldDecl.name).Nodup) →
       alookup d.name s.fields = some ft →
       buildAllowedUsages d.usageAnns = .ok us →
       d.subfields.isEmpty = false →
       ft.innerSchema? = some s' →
       buildPolicyFields s' d.subfields = .error e →
       buildPolicyFields s (d :: ds) = .error e)
    ∧ (∀ (resolve : String → Option Schema) (td : TargetDecl) (s : Schema) (e : String),
       resolve td.schemaName = some s →
       (∃ rs, buildRetentions td.retentionAnns [] = .ok rs) →
       (∃ ma, buildMaxAge td.maxAgeAnn = .ok ma) →
       buildPolicyFields s td.fields = .error e →
       buildTarget resolve td = .error e) := by
  refine ⟨fun s d ds hnd hl => ?_, fun s d ds ft s' us e hnd hl hu hsub hi hb => ?_,
          fun resolve td s e hres hrets hma hb => ?_⟩
  · rw [buildPolicyFields, checkDupNames_of_nodup _ _ hnd (by simp)]
    rw [buildEachField, buildPolicyField, hl]
  · rw [buildPolicyFields, checkDupNames_of_nodup _ _ hnd (by simp)]
    rw [buildEachField, buildPolicyField, hl, hu]
    simp only [hsub, Bool.false_eq_true, if_false, hi, hb]
  · obtain ⟨rs, hrs⟩ := hrets
    obtain ⟨ma, hma'⟩ := hma
    rw [buildTarget, hres, hrs, hma']
    simp [hb]

/-- The nested target declaration selecting
`friends { unknownField }` from the test `Person` schema. -/
def tdNested : TargetDecl :=
  ⟨"Person", [], none, [],
   [.mk "friends" [] [] [.mk "unknownField" [] [] []]]⟩

/-- Witness for C8: building the `friends { unknownField }` target fails
with the unknown-field error naming the nested `Friend` schema and the
offending field. -/
theorem unknown_field_rejected_witness :
    buildTarget resolveTest tdNested = .error (unknownFieldMsg "Friend" "unknownField") := by
  have hinner : buildPolicyFields ⟨"Friend", friendFields⟩ [.mk "unknownField" [] [] []]
      = .error (unknownFieldMsg "Friend" "unknownField") := by
    have h := unknown_field_rejected.1 ⟨"Friend", friendFields⟩ (.mk "unknownField" [] [] []) []
      (by simp [FieldDecl.name]) (by simp [alookup, friendFields, FieldDecl.name])
    simpa [FieldDecl.name] using h
  have houter : buildPolicyFields personSchemaT [.mk "friends" [] [] [.mk "unknownField" [] [] []]]
      = .error (unknownFieldMsg "Friend" "unknownField") := by
    have h := unknown_field_rejected.2.1 personSchemaT
      (.mk "friends" [] [] [.mk "unknownField" [] [] []]) []
      (.collection (.reference "Friend" friendFields)) ⟨"Friend", friendFields⟩
      [defaultUsage] (unknownFieldMsg "Friend" "unknownField")
      (by simp [FieldDecl.name])
      (by simp [alookup, personSchemaT, FieldDecl.name])
      (by simp [FieldDecl.usageAnns, buildAllowedUsages, buildUsagesGo])
      (by simp [FieldDecl.subfields])
      (by simp [FieldType.innerSchema?])
      (by simpa [FieldDecl.subfields] using hinner)
    exact h
  exact unknown_field_rejected.2.2 resolveTest tdNested personSchemaT _
    (by simp [resolveTest, tdNested]) ⟨[], by simp [tdNested, buildRetentions]⟩
    ⟨⟨0, .days⟩, by simp [tdNested, buildMaxAge]⟩ (by simpa [tdNested] using houter)

/-- The declaration of the test policy
`policy MyPolicy { from Person access { age, } }`, whose `age` field
carries no `@allowedUsage` annotation. -/
def c10Decl : PolicyDecl :=
  ⟨"MyPolicy", none, none, [],
   [⟨"Person", [], none, [], [.mk "age" [] [] []]⟩], []⟩

/-- The policy built from `c10Decl`: the `age` field carries the
synthesized default allowed usage. -/
def c10Policy : Policy :=
  ⟨"MyPolicy", none, none, [],
   [⟨"Person", personSchemaT, [], ⟨0, .days⟩, false, [],
     [.mk "age" [defaultUsage] [] [] []]⟩], []⟩

/-- The original canonical text of the test policy, which has no
`@allowedUsage` line. -/
def c10Text : String :=
  "policy MyPolicy \x7b\n  from Person access \x7b\n    age,\n  \x7d\n\x7d"

/-- C10: the canonical serializer never emits the synthesized default
allowed usage: the policy built from the annotation-free `age` declaration
has `allowedUsages == [(Any, '')]` for that field, yet `toManifestString()`
reproduces the original text with no `@allowedUsage` line. -/
theorem serializer_omits_default_usage :
    buildPolicy resolveTest c10Decl = .ok c10Policy
    ∧ (∀ t ∈ c10Policy.targets, ∀ f ∈ t.fields, f.allowedUsages = [defaultUsage])
    ∧ c10Policy.toManifestString = c10Text := by
  refine ⟨?_, ?_, ?_⟩
  · simp [buildPolicy, c10Decl, checkDupNames, buildTargets, buildTarget, resolveTest,
          buildRetentions, buildMaxAge, buildPolicyFields, buildEachField, buildPolicyField,
          alookup, personSchemaT, FieldDecl.name, FieldDecl.usageAnns, FieldDecl.customAnns,
          FieldDecl.subfields, buildAllowedUsages, buildUsagesGo, defaultUsage, c10Policy]
  · intro t ht f hf
    simp [c10Policy] at ht
    subst ht
    simp at hf
    subst hf
    rfl
  · simp [Policy.toManifestString, c10Policy, serializeTarget, serializeFields, serializeField,
          PolicyField.usageAnns, PolicyField.customAnns, PolicyField.name, PolicyField.subfields,
          joinLines, c10Text]

/-- Witness for C10: the built `age` field of the concrete policy carries
exactly the synthesized default allowed usage. -/
theorem serializer_omits_default_usage_witness :
    (PolicyField.mk "age" [defaultUsage] [] [] []).allowedUsages = [defaultUsage] :=
  serializer_omits_default_usage.2.1
    ⟨"Person", personSchemaT, [], ⟨0, .days⟩, false, [], [.mk "age" [defaultUsage] [] [] []]⟩
    (by simp [c10Policy]) (.mk "age" [defaultUsage] [] [] []) (by simp)

/-- Splitting a character list at a delimiter absent from the left part. -/
theorem takeUntil_no_delim : ∀ (a : List Char) (d : Char) (b : List Char), d ∉ a →
    takeUntil d (a ++ d :: b) = some (a, b) := by
  intro a d
  induction a with
  | nil => intro b _; simp [takeUntil]
  | cons c cs ih =>
    intro b hnot
    have hcd : ¬ c = d := fun h => hnot (by simp [h])
    have hcs : d ∉ cs := fun h => hnot (by simp [h])
    simp [takeUntil, if_neg hcd, ih b hcs]

/-- A syntactically valid policy text using the positional
`@intendedPurpose` argument form. -/
def c4Text : String := "@intendedPurpose(\x27test\x27)\npolicy MyPolicy \x7b\x7d"

/-- Counterexample to C4 as stated: the positional-argument text parses
successfully, but re-serializing the parsed model produces the canonical
named-argument form, which is not byte-identical to the input. -/
theorem serialize_parse_not_identity :
    parsePolicyText c4Text = some (emptyPolicy "MyPolicy" (some "test"))
    ∧ Policy.toManifestString (emptyPolicy "MyPolicy" (some "test"))
        = "@intendedPurpose(description: \x27test\x27)\npolicy MyPolicy \x7b\x7d"
    ∧ Policy.toManifestString (emptyPolicy "MyPolicy" (some "test")) ≠ c4Text := by
  refine ⟨rfl, rfl, ?_⟩
  decide

/-- C4 (amended): serializing the parsed model reproduces the text exactly
for texts in the canonical serialized form: parsing the serializer's output
recovers the model, so re-serializing parsed output is byte-identical. -/
theorem parse_serialize_roundtrip (n d : String) (hn : ' ' ∉ n.data)
    (hd : '\x27' ∉ d.data) :
    parsePolicyText (Policy.toManifestString (emptyPolicy n none)) = some (emptyPolicy n none)
    ∧ parsePolicyText (Policy.toManifestString (emptyPolicy n (some d)))
        = some (emptyPolicy n (some d)) := by
  constructor
  · have ht := takeUntil_no_delim n.data ' ' ['\x7b', '\x7d'] hn
    show Option.map (fun nm => emptyPolicy nm none)
        (match takeUntil ' ' (n.data ++ [' ', '\x7b', '\x7d']) with
         | none => none
         | some (nm, r2) => if r2 = "\x7b\x7d".data then some (String.mk nm) else none)
        = some (emptyPolicy n none)
    rw [ht]
    rfl
  · have ht := takeUntil_no_delim d.data '\x27'
      (')' :: '\n' :: ("policy " ++ n ++ " \x7b\x7d").data) hd
    have ht2 := takeUntil_no_delim n.data ' ' ['\x7b', '\x7d'] hn
    have het : ((d.data ++ ['\x27', ')']) ++ ['\n']) ++ ("policy " ++ n ++ " \x7b\x7d").data
        = d.data ++ ('\x27' :: ')' :: '\n' :: ("policy " ++ n ++ " \x7b\x7d").data) := by
      simp [List.append_assoc]
    show (match takeUntil '\x27'
            (((d.data ++ ['\x27', ')']) ++ ['\n']) ++ ("policy " ++ n ++ " \x7b\x7d").data) with
          | none => none
          | some (d', r) =>
            match stripPref ")\n".data r with
            | none => none
            | some r2 => (parseNamePart r2).map fun nm => emptyPolicy nm (some (String.mk d')))
        = some (emptyPolicy n (some d))
    rw [het, ht]
    show Option.map (fun nm => emptyPolicy nm (some (String.mk d.data)))
        (match takeUntil ' ' (n.data ++ [' ', '\x7b', '\x7d']) with
         | none => none
         | some (nm, r2) => if r2 = "\x7b\x7d".data then some (String.mk nm) else none)
        = some (emptyPolicy n (some d))
    rw [ht2]
    rfl

/-- Witness for C4 (amended) at a concrete canonical text. -/
theorem parse_serialize_roundtrip_witness :
    (' ' ∉ "MyPolicy".data) ∧ ('\x27' ∉ "test".data)
    ∧ parsePolicyText (Policy.toManifestString (emptyPolicy "MyPolicy" (some "test")))
        = some (emptyPolicy "MyPolicy" (some "test")) :=
  ⟨by decide, by decide,
   (parse_serialize_roundtrip "MyPolicy" "test" (by decide) (by decide)).2⟩

/-- Lookup misses exactly the keys absent from an association list. -/
theorem alookup_eq_none_of_not_mem {α : Type} : ∀ (l : List (String × α)) (k : String),
    k ∉ l.map Prod.fst → alookup k l = none := by
  intro l
  induction l with
  | nil => intro k _; rfl
  | cons p rest ih =>
    intro k hk
    obtain ⟨m, v⟩ := p
    have h1 : ¬ k = m := fun h => hk (by simp [h])
    have h2 : k ∉ rest.map Prod.fst := fun h => hk (by simp [h])
    simp [alookup, h1, ih k h2]

/-- Key membership in the aggregation after inserting one entry. -/
theorem mem_keys_insertEntry (acc : List (String × Schema)) (e : String × Schema) (n : String) :
    n ∈ (insertEntry acc e).map Prod.fst ↔ (n ∈ acc.map Prod.fst ∨ n = e.1) := by
  induction acc with
  | nil => simp [insertEntry]
  | cons p rest ih =>
    obtain ⟨m, s⟩ := p
    by_cases h : m = e.1
    · rw [insertEntry, if_pos h]
      subst h
      simp only [List.map_cons, List.mem_cons]
      tauto
    · rw [insertEntry, if_neg h]
      simp only [List.map_cons, List.mem_cons, ih]
      tauto

/-- Key membership in the aggregation fold. -/
theorem mem_keys_foldl_insertEntry : ∀ (es acc : List (String × Schema)) (n : String),
    n ∈ ((es.foldl insertEntry acc).map Prod.fst)
    ↔ (n ∈ acc.map Prod.fst ∨ n ∈ es.map Prod.fst) := by
  intro es
  induction es with
  | nil => intro acc n; simp
  | cons e rest ih =>
    intro acc n
    rw [List.foldl_cons, ih, mem_keys_insertEntry]
    simp
    tauto

mutual

/-- A schema name is a key of the collector's output for a field list
exactly when the field list reaches it through a Reference. -/
theorem mem_keys_collectFromFields : ∀ (flds : List (String × FieldType)) (n : String),
    n ∈ (collectFromFields flds).map Prod.fst ↔ fieldsMentionRef flds n = true
  | [], _ => by
    simp [collectFromFields, fieldsMentionRef]
  | (m, ft) :: rest, n => by
    rw [collectFromFields, fieldsMentionRef]
    simp only [List.map_append, List.mem_append, Bool.or_eq_true]
    rw [mem_keys_collectFromType ft n, mem_keys_collectFromFields rest n]
termination_by flds _ => sizeOf flds
decreasing_by
  all_goals decreasing_tactic

/-- A schema name is a key of the collector's output for a field type
exactly when the type reaches it through a Reference. -/
theorem mem_keys_collectFromType : ∀ (ft : FieldType) (n : String),
    n ∈ (collectFromType ft).map Prod.fst ↔ typeMentionsRef ft n = true
  | .primitive t, _ => by
    simp [collectFromType, typeMentionsRef]
  | .reference m f, n => by
    rw [collectFromType, typeMentionsRef]
    simp only [List.map_cons, List.mem_cons, Bool.or_eq_true]
    rw [mem_keys_collectFromFields f n]
    simp [decide_eq_true_eq, @eq_comm String n m]
  | .inlineEntity m f, n => by
    rw [collectFromType, typeMentionsRef]
    exact mem_keys_collectFromFields f n
  | .collection i, n => by
    rw [collectFromType, typeMentionsRef]
    exact mem_keys_collectFromType i n
termination_by ft _ => sizeOf ft
decreasing_by
  all_goals decreasing_tactic

end

/-- C2: the ingress-validation aggregation maps a schema name to an entry
exactly when some policy's target reaches that schema through a Reference
at least once: as the restricted target root, or nested behind a reference
anywhere in the restricted tree (descending through inline wrappers, so a
reference nested inside an inline-only schema is still included); a schema
reached only through inline wrappers from every policy is absent. -/
theorem ingress_reference_inclusion (ps : List Policy) (n : String) :
    n ∈ (maxReadSchemas ps).map Prod.fst
    ↔ ∃ p, p ∈ ps ∧ ∃ t, t ∈ p.targets
        ∧ (n = t.getMaxReadSchema.name
           ∨ fieldsMentionRef t.getMaxReadSchema.fields n = true) := by
  have hfix : ∀ (F : List (String × FieldType)),
      (∃ x, (n, x) ∈ collectFromFields F) ↔ fieldsMentionRef F n = true := by
    intro F
    rw [← mem_keys_collectFromFields]
    constructor
    · rintro ⟨x, hx⟩
      exact List.mem_map.mpr ⟨(n, x), hx, rfl⟩
    · intro h
      rcases List.mem_map.mp h with ⟨⟨a, b⟩, hab, ha⟩
      simp only at ha
      subst ha
      exact ⟨b, hab⟩
  rw [maxReadSchemas, mem_keys_foldl_insertEntry]
  simp only [List.map_nil, List.not_mem_nil, false_or]
  rw [allEntries]
  simp [List.mem_flatten, List.mem_map, collectEntries]
  simp only [hfix]

/-- Combine two optional field types the way the recursive field union
does: a field present in both sources is merged, a field present in only
one source is carried through unchanged. -/
def combineO : Option FieldType → Option FieldType → Option FieldType
  | some f, some g => some (mergeType f g)
  | some f, none => some f
  | none, o => o

/-- Merge all source schemas of one name, in collection order; a name with
no sources has no entry. -/
def mergeSources : List Schema → Option Schema
  | [] => none
  | s :: l => some (l.foldl mergeSchema s)

/-- Lookup in the field union after inserting one field. -/
theorem alookup_insertField (a : List (String × FieldType)) (m : String) (g : FieldType)
    (k : String) :
    alookup k (insertField a m g)
      = if k = m then
          (match alookup k a with
           | some f => some (mergeType f g)
           | none => some g)
        else alookup k a := by
  induction a with
  | nil =>
    by_cases hk : k = m <;> simp [insertField, alookup, hk]
  | cons p r ih =>
    obtain ⟨m', g'⟩ := p
    by_cases hm : m' = m
    · subst hm
      by_cases hk : k = m' <;> simp [insertField, alookup, hk]
    · by_cases hk : k = m'
      · subst hk
        have : ¬ k = m := hm
        simp [insertField, alookup, hm, this]
      · simp [insertField, alookup, hm, hk, ih]

/-- Lookup in the recursive field union of two field lists: the union has
a key exactly when either source does; a field in both is merged
recursively and a field in only one source is carried unchanged. -/
theorem alookup_mergeFields : ∀ (b a : List (String × FieldType)) (k : String),
    (b.map Prod.fst).Nodup →
    alookup k (mergeFields a b) = combineO (alookup k a) (alookup k b) := by
  intro b
  induction b with
  | nil =>
    intro a k _
    rw [mergeFields]
    cases alookup k a <;> simp [combineO, alookup]
  | cons e rest ih =>
    intro a k hnd
    obtain ⟨m, g⟩ := e
    rw [mergeFields]
    have hnd' : (rest.map Prod.fst).Nodup := (List.nodup_cons.mp (by simpa using hnd)).2
    have hmnotin : m ∉ rest.map Prod.fst := (List.nodup_cons.mp (by simpa using hnd)).1
    rw [ih (insertField a m g) k hnd', alookup_insertField]
    by_cases hk : k = m
    · subst hk
      rw [if_pos rfl, alookup_eq_none_of_not_mem rest k hmnotin]
      cases halk : alookup k a <;> simp [combineO, alookup]
    · rw [if_neg hk]
      have : alookup k ((m, g) :: rest) = alookup k rest := by
        simp [alookup, hk]
      rw [this]

/-- Lookup in the aggregation after inserting one entry. -/
theorem alookup_insertEntry (acc : List (String × Schema)) (e : String × Schema) (k : String) :
    alookup k (insertEntry acc e)
      = if k = e.1 then
          (match alookup k acc with
           | some s => some (mergeSchema s e.2)
           | none => some e.2)
        else alookup k acc := by
  induction acc with
  | nil =>
    by_cases hk : k = e.1 <;> simp [insertEntry, alookup, hk]
  | cons p r ih =>
    obtain ⟨m', s'⟩ := p
    by_cases hm : m' = e.1
    · by_cases hk : k = m'
      · simp [insertEntry, alookup, hm, hk, hk.trans hm]
      · have hke : ¬ k = e.1 := fun h => hk (h.trans hm.symm)
        simp [insertEntry, alookup, hm, hk, hke]
    · by_cases hk : k = m'
      · have hke : ¬ k = e.1 := fun h => hm (hk.symm.trans h)
        simp [insertEntry, alookup, hm, hk, hke]
      · simp [insertEntry, alookup, hm, hk, ih]

/-- Lookup in the aggregation fold equals the merge of all sources with the
matching name, folded onto whatever the accumulator already holds. -/
theorem alookup_foldl_insertEntry : ∀ (es acc : List (String × Schema)) (k : String),
    alookup k (es.foldl insertEntry acc)
      = (match alookup k acc with
         | some s => some (((es.filter fun e => e.1 = k).map Prod.snd).foldl mergeSchema s)
         | none => mergeSources ((es.filter fun e => e.1 = k).map Prod.snd)) := by
  intro es
  induction es with
  | nil =>
    intro acc k
    cases h : alookup k acc <;> simp [mergeSources, h]
  | cons e rest ih =>
    intro acc k
    rw [List.foldl_cons, ih, alookup_insertEntry]
    by_cases hk : k = e.1
    · have hf : (((e :: rest).filter fun x => x.1 = k).map Prod.snd)
          = e.2 :: ((rest.filter fun x => x.1 = k).map Prod.snd) := by
        simp [List.filter_cons, hk.symm]
      rw [if_pos hk, hf]
      cases halk : alookup k acc <;> simp [mergeSources]
    · have hf : (((e :: rest).filter fun x => x.1 = k).map Prod.snd)
          = ((rest.filter fun x => x.1 = k).map Prod.snd) := by
        have : ¬ e.1 = k := fun h => hk h.symm
        simp [List.filter_cons, this]
      rw [if_neg hk, hf]

/-- The keys of the aggregation after inserting one entry: unchanged when
the entry's name is already present, extended by it otherwise. -/
theorem keys_insertEntry_eq (acc : List (String × Schema)) (e : String × Schema) :
    (insertEntry acc e).map Prod.fst
      = if e.1 ∈ acc.map Prod.fst then acc.map Prod.fst
        else acc.map Prod.fst ++ [e.1] := by
  induction acc with
  | nil => simp [insertEntry]
  | cons p r ih =>
    obtain ⟨m, s⟩ := p
    by_cases hm : m = e.1
    · subst hm
      simp [insertEntry]
    · rw [insertEntry, if_neg hm]
      have : (e.1 ∈ (m :: r.map Prod.fst)) ↔ e.1 ∈ r.map Prod.fst := by
        simp [List.mem_cons]
        intro h
        exact absurd h.symm hm
      by_cases he : e.1 ∈ r.map Prod.fst
      · simp [ih, he, this]
      · simp only [List.map_cons, ih, if_neg he]
        rw [if_neg (fun h => he (this.mp h))]
        simp

/-- The aggregation fold keeps its keys pairwise distinct. -/
theorem nodup_keys_foldl_insertEntry : ∀ (es acc : List (String × Schema)),
    (acc.map Prod.fst).Nodup → ((es.foldl insertEntry acc).map Prod.fst).Nodup := by
  intro es
  induction es with
  | nil => intro acc h; simpa using h
  | cons e rest ih =>
    intro acc h
    rw [List.foldl_cons]
    refine ih (insertEntry acc e) ?_
    rw [keys_insertEntry_eq]
    by_cases he : e.1 ∈ acc.map Prod.fst
    · simpa [he] using h
    · rw [if_neg he]
      simp [List.nodup_append, h, he]

/-- C3: when the same schema name is produced by more than one policy or
target, the aggregated ingress map contains one entry per name (its keys
are pairwise distinct), that entry is the recursive union of all sources in
collection order, and the recursive field union unions field names, merges
a field compound in both sources recursively, and carries a field present
in only one source through unchanged. -/
theorem ingress_merged_union (ps : List Policy) (n : String) :
    ((maxReadSchemas ps).map Prod.fst).Nodup
    ∧ alookup n (maxReadSchemas ps)
        = mergeSources (((allEntries ps).filter fun e => e.1 = n).map Prod.snd)
    ∧ (∀ (a b : List (String × FieldType)) (k : String), (b.map Prod.fst).Nodup →
         alookup k (mergeFields a b) = combineO (alookup k a) (alookup k b))
    ∧ (∀ (m1 m2 : String) (f1 f2 : List (String × FieldType)),
         mergeType (.reference m1 f1) (.reference m2 f2) = .reference m1 (mergeFields f1 f2)
         ∧ mergeType (.inlineEntity m1 f1) (.inlineEntity m2 f2)
             = .inlineEntity m1 (mergeFields f1 f2))
    ∧ (∀ i1 i2 : FieldType,
         mergeType (.collection i1) (.collection i2) = .collection (mergeType i1 i2)) := by
  refine ⟨?_, ?_, fun a b k hnd => alookup_mergeFields b a k hnd, ?_, ?_⟩
  · exact nodup_keys_foldl_insertEntry (allEntries ps) [] (by simp)
  · rw [maxReadSchemas, alookup_foldl_insertEntry]
    rfl
  · intro m1 m2 f1 f2
    constructor <;> rw [mergeType]
  · intro i1 i2
    rw [mergeType]

/-- Witness for C3: the lookup characterization of the recursive field
union at concrete field lists. -/
theorem ingress_merged_union_witness :
    alookup "street" (mergeFields [("street", .primitive "Text")]
        [("city", .primitive "Text")])
      = combineO (alookup "street" [("street", .primitive "Text")])
          (alookup "street" [("city", .primitive "Text")]) :=
  (ingress_merged_union [] "street").2.2.1
    [("street", .primitive "Text")] [("city", .primitive "Text")] "street" (by simp)

/-- Witness for C9: two `Ram` retentions fail with the exact message. -/
theorem retention_mediums_unique_witness :
    ∃ m, 2 ≤ (medsOf [("Ram", true), ("Ram", true)]).count m
         ∧ buildRetentions [("Ram", true), ("Ram", true)] [] = .error (dupRetentionMsg m) :=
  (retention_mediums_unique [("Ram", true), ("Ram", true)] (by decide)).1 (by decide)

end ArcsPolicy
